import Mathlib

/-!
# Verification of the radial normalizing-flow transform

Shallow embedding of `pyro/distributions/transforms/radial.py`.

A tensor of shape `[batch..., D]` (a batch of `D`-vectors) is modelled as a
`List (Fin D → ℝ)`: the batch dimensions are flattened into one list and the
trailing event dimension is a function `Fin D → ℝ`.  A tensor of shape
`[batch..., 1]` produced with `keepdim=True` is modelled as a `List ℝ` with one
scalar per batch element; summing such a tensor over its trailing size-1
dimension is the identity on each scalar.  Broadcast tensor operations become
`List.map` / `List.zipWith` over the batch.
-/

noncomputable section

/-- `torch.nn.functional.softplus` with the default `beta=1`:
`softplus x = log (1 + exp x)`. -/
def softplus (x : ℝ) : ℝ := Real.log (1 + Real.exp x)

/-- `torch.log1p`. -/
def log1p (x : ℝ) : ℝ := Real.log (1 + x)

/-- `tensor.norm(dim=-1)` on a single event vector: the Euclidean norm. -/
def eNorm {D : ℕ} (v : Fin D → ℝ) : ℝ := Real.sqrt (∑ i, (v i) ^ 2)

/-- Broadcast subtraction `x - x0` of a `[batch..., D]` tensor and a
`[D]` tensor. -/
def bSub {D : ℕ} (xs : List (Fin D → ℝ)) (x0 : Fin D → ℝ) : List (Fin D → ℝ) :=
  xs.map (fun x i => x i - x0 i)

/-- `diff.norm(dim=-1, keepdim=True)`: one scalar per batch element. -/
def bNorm {D : ℕ} (xs : List (Fin D → ℝ)) : List ℝ := xs.map eNorm

/-- Broadcast addition of a scalar and a `[batch..., 1]` tensor. -/
def bScalarAdd (c : ℝ) (rs : List ℝ) : List ℝ := rs.map (fun v => c + v)

/-- `.reciprocal()` elementwise. -/
def bRecip (rs : List ℝ) : List ℝ := rs.map (fun v => v⁻¹)

/-- `-(t ** 2)` elementwise. -/
def bNegSq (rs : List ℝ) : List ℝ := rs.map (fun v => -(v ^ 2))

/-- Broadcast multiplication of a scalar and a `[batch..., 1]` tensor. -/
def bScalarMul (c : ℝ) (rs : List ℝ) : List ℝ := rs.map (fun v => c * v)

/-- Elementwise product of two `[batch..., 1]` tensors. -/
def bMul (a b : List ℝ) : List ℝ := List.zipWith (fun u v => u * v) a b

/-- Elementwise sum of two `[batch..., 1]` tensors. -/
def bAdd (a b : List ℝ) : List ℝ := List.zipWith (fun u v => u + v) a b

/-- `torch.log1p` applied elementwise. -/
def bLog1p (rs : List ℝ) : List ℝ := rs.map log1p

/-- Broadcast multiplication of a `[batch..., 1]` tensor with a
`[batch..., D]` tensor: the size-1 trailing dimension broadcasts over `D`. -/
def bBMul {D : ℕ} (cs : List ℝ) (vs : List (Fin D → ℝ)) : List (Fin D → ℝ) :=
  List.zipWith (fun c v i => c * v i) cs vs

/-- Elementwise sum of two `[batch..., D]` tensors. -/
def bVAdd {D : ℕ} (a b : List (Fin D → ℝ)) : List (Fin D → ℝ) :=
  List.zipWith (fun u v i => u i + v i) a b

/-- The three parameters of a conditioned radial transform: the center
`x0 : ℝ^D` and the two unconstrained scalars `alpha_prime`, `beta_prime`
(shape-`[1]` tensors in the source, hence scalars here). -/
structure RadialParams (D : ℕ) where
  x0 : Fin D → ℝ
  alpha_prime : ℝ
  beta_prime : ℝ

/-- `ConditionedRadial._call`: from the source,

* `alpha = F.softplus(self.alpha_prime)`
* `beta = -alpha + F.softplus(self.beta_prime)`
* `diff = x - self.x0`
* `r = diff.norm(dim=-1, keepdim=True)`
* `h = (alpha + r).reciprocal()`
* `h_prime = -(h ** 2)`
* `beta_h = beta * h`
* `logDetJ = ((x0.size(-1) - 1) * log1p(beta_h)
              + log1p(beta_h + beta * h_prime * r)).sum(-1)`
* returns `x + beta_h * diff`.

The `.sum(-1)` collapses the kept size-1 trailing dimension, which in this
embedding is already a scalar per batch element, so it is the identity.
Returns the pair (output tensor, per-batch-element `logDetJ`). -/
def radialCall {D : ℕ} (p : RadialParams D) (xs : List (Fin D → ℝ)) :
    List (Fin D → ℝ) × List ℝ :=
  let alpha := softplus p.alpha_prime
  let beta := -alpha + softplus p.beta_prime
  let diff := bSub xs p.x0
  let r := bNorm diff
  let h := bRecip (bScalarAdd alpha r)
  let h_prime := bNegSq h
  let beta_h := bScalarMul beta h
  let logDetJ := bAdd (bScalarMul ((D : ℝ) - 1) (bLog1p beta_h))
      (bLog1p (bAdd beta_h (bMul (bScalarMul beta h_prime) r)))
  (bVAdd xs (bBMul beta_h diff), logDetJ)

/-- The spec's derived parameter `α = softplus(alpha_prime)`. -/
def specAlpha {D : ℕ} (p : RadialParams D) : ℝ := softplus p.alpha_prime

/-- The spec's derived parameter `β = softplus(beta_prime) − α`. -/
def specBeta {D : ℕ} (p : RadialParams D) : ℝ := softplus p.beta_prime - specAlpha p

/-- The spec's `r`: the Euclidean norm of `x − x0` along the last dimension. -/
def specR {D : ℕ} (p : RadialParams D) (x : Fin D → ℝ) : ℝ :=
  eNorm (fun i => x i - p.x0 i)

/-- The spec's `h = 1/(α + r)`. -/
def specH {D : ℕ} (p : RadialParams D) (x : Fin D → ℝ) : ℝ :=
  1 / (specAlpha p + specR p x)

/-- The spec's forward map on one event vector: `y = x + β·h·(x − x0)`. -/
def specForward {D : ℕ} (p : RadialParams D) (x : Fin D → ℝ) : Fin D → ℝ :=
  fun i => x i + specBeta p * specH p x * (x i - p.x0 i)

/-- The spec's per-batch-element log-Jacobian:
`(D−1)·log1p(βh) + log1p(βh + β·h′·r)` with `h′ = −h²`. -/
def specLogDet {D : ℕ} (p : RadialParams D) (x : Fin D → ℝ) : ℝ :=
  ((D : ℝ) - 1) * log1p (specBeta p * specH p x) +
    log1p (specBeta p * specH p x + specBeta p * (-(specH p x ^ 2)) * specR p x)

/-- A runtime tensor: a value together with an object identity `tid`
(Python's `is` compares object identities, never numerical contents). -/
structure Tensor (D : ℕ) where
  tid : ℕ
  val : List (Fin D → ℝ)

/-- The state of a `ConditionedRadial` instance: the three parameters plus the
one-entry cache.  `cached_x_y = none` models the freshly initialised
`(None, None)` pair and `cached_logDetJ = none` models the `None` set in
`__init__`; a real tensor is never identical to `None`, so `none` always
misses the identity check. -/
structure ConditionedRadial (D : ℕ) where
  x0 : Fin D → ℝ
  alpha_prime : ℝ
  beta_prime : ℝ
  cached_x_y : Option (Tensor D × Tensor D)
  cached_logDetJ : Option (List ℝ)

/-- The parameter record held by an instance. -/
def ConditionedRadial.params {D : ℕ} (t : ConditionedRadial D) : RadialParams D :=
  ⟨t.x0, t.alpha_prime, t.beta_prime⟩

/-- `ConditionedRadial.__init__(x0, alpha_prime, beta_prime)`: stores the three
parameters, sets `_cached_logDetJ = None`, and (via
`super().__init__(cache_size=1)`) starts with an empty `(None, None)`
input/output cache. -/
def ConditionedRadial.init {D : ℕ} (x0 : Fin D → ℝ) (alpha_prime beta_prime : ℝ) :
    ConditionedRadial D :=
  ⟨x0, alpha_prime, beta_prime, none, none⟩

/-- Modelled from the spec: the caching forward entry point.  The body of the
forward computation is `ConditionedRadial._call` (`radialCall` above, from the
source); the wrapper that stores the `(x, y)` pair lives in the base
`Transform` class outside this repository, and the spec describes it as:
forward "caches (x, y) and the per-batch-element scalar log-determinant ...
keyed by tensor identity", overwritten on every forward call.  The fresh
output tensor receives the caller-supplied object identity `yid`. -/
def ConditionedRadial.call {D : ℕ} (t : ConditionedRadial D) (x : Tensor D)
    (yid : ℕ) : Tensor D × ConditionedRadial D :=
  let res := radialCall t.params x.val
  let y : Tensor D := ⟨yid, res.1⟩
  (y, { t with cached_x_y := some (x, y), cached_logDetJ := some res.2 })

/-- A raised Python exception. -/
inductive PyErr where
  | keyError : String → PyErr

/-- `ConditionedRadial._inverse(y)`: unconditionally
`raise KeyError("ConditionedRadial object expected to find key in
intermediates cache but didn't")`.  The raise leaves the instance state
untouched, so the state is returned unchanged. -/
def ConditionedRadial.inverseFn {D : ℕ} (t : ConditionedRadial D) (y : Tensor D) :
    Except PyErr (Tensor D) × ConditionedRadial D :=
  (Except.error (PyErr.keyError
    "ConditionedRadial object expected to find key in intermediates cache but did not"),
   t)

/-- `ConditionedRadial.log_abs_det_jacobian(x, y)`:

    x_old, y_old = self._cached_x_y
    if x is not x_old or y is not y_old:
        self(x)
    return self._cached_logDetJ

The identity test compares the objects' identities (`tid`); when either
component misses, `self(x)` re-runs the forward pass and refreshes the cache.
`yid` is the object identity of the output tensor a recomputation would
allocate. -/
def ConditionedRadial.log_abs_det_jacobian {D : ℕ} (t : ConditionedRadial D)
    (x y : Tensor D) (yid : ℕ) : Option (List ℝ) × ConditionedRadial D :=
  match t.cached_x_y with
  | some (x_old, y_old) =>
      if x.tid = x_old.tid ∧ y.tid = y_old.tid then
        (t.cached_logDetJ, t)
      else
        let t' := (t.call x yid).2
        (t'.cached_logDetJ, t')
  | none =>
      let t' := (t.call x yid).2
      (t'.cached_logDetJ, t')

/-- Whether the pair `(x, y)` hits the one-entry identity cache of `t`. -/
def cacheHit {D : ℕ} (t : ConditionedRadial D) (x y : Tensor D) : Bool :=
  match t.cached_x_y with
  | some (x_old, y_old) => x.tid == x_old.tid && y.tid == y_old.tid
  | none => false

/-- `ConditionalRadial`: wraps the parameter network `nn`, a function from a
context vector of dimension `C` to the tuple `(x0, alpha_prime, beta_prime)`. -/
structure ConditionalRadial (C D : ℕ) where
  nn : (Fin C → ℝ) → (Fin D → ℝ) × ℝ × ℝ

/-- `ConditionalRadial.condition(context)`:

    x0, alpha_prime, beta_prime = self.nn(context)
    return ConditionedRadial(x0, alpha_prime, beta_prime)
-/
def ConditionalRadial.condition {C D : ℕ} (m : ConditionalRadial C D)
    (context : Fin C → ℝ) : ConditionedRadial D :=
  let r := m.nn context
  ConditionedRadial.init r.1 r.2.1 r.2.2

theorem radialCall_eq_map {D : ℕ} (p : RadialParams D) (xs : List (Fin D → ℝ)) :
    radialCall p xs = (xs.map (specForward p), xs.map (specLogDet p)) := by
  induction xs with
  | nil => rfl
  | cons x xs ih =>
    simp only [radialCall, bSub, bNorm, bScalarAdd, bRecip, bNegSq, bScalarMul,
      bMul, bAdd, bLog1p, bBMul, bVAdd, List.map_cons, List.zipWith_cons_cons,
      Prod.mk.injEq, List.cons.injEq] at ih ⊢
    refine ⟨⟨?_, ih.1⟩, ?_, ih.2⟩
    · funext i
      simp only [specForward, specBeta, specAlpha, specH, specR]
      ring
    · simp only [specLogDet, specBeta, specAlpha, specH, specR]
      ring_nf

theorem join_map_singleton {α β : Type} (f : α → β) (l : List α) :
    (l.map (fun a => [f a])).flatten = l.map f := by
  induction l with
  | nil => rfl
  | cons a l ih => simp [ih]

/-- C1: for every input batch whose event dimension matches the center `x0`,
the forward pass returns, per batch element, `y = x + β·h·(x − x0)` where
`α = softplus(alpha_prime)`, `β = softplus(beta_prime) − α`, `r` is the
Euclidean norm of `x − x0` along the last dimension and `h = 1/(α + r)`. -/
theorem radial_forward_closed_form {D : ℕ} (p : RadialParams D)
    (xs : List (Fin D → ℝ)) :
    (radialCall p xs).1 = xs.map (specForward p) := by
  rw [radialCall_eq_map]

/-- C2: the log-Jacobian computed by the forward pass, and returned by
`log_abs_det_jacobian` on the freshly cached `(x, y)` pair, equals per batch
element `(D−1)·log1p(βh) + log1p(βh + β·h′·r)` (summed over the size-1
trailing dimension), with `h = 1/(α+r)` and `h′ = −h²`. -/
theorem radial_logdet_closed_form {D : ℕ} (t : ConditionedRadial D)
    (x : Tensor D) (yid yid2 : ℕ) :
    ((t.call x yid).2).cached_logDetJ = some (x.val.map (specLogDet t.params)) ∧
    (((t.call x yid).2).log_abs_det_jacobian x (t.call x yid).1 yid2).1 =
      some (x.val.map (specLogDet t.params)) := by
  have h1 : ((t.call x yid).2).cached_logDetJ = some (x.val.map (specLogDet t.params)) := by
    show some (radialCall t.params x.val).2 = _
    rw [radialCall_eq_map]
  refine ⟨h1, ?_⟩
  have hc : ((t.call x yid).2).cached_x_y = some (x, (t.call x yid).1) := rfl
  simp only [ConditionedRadial.log_abs_det_jacobian, hc]
  simp [h1]

/-- C3: for all real raw parameters, `α = softplus(alpha_prime) > 0` and
`β + α = softplus(beta_prime) > 0`, hence the invertibility condition
`β > −α` holds. -/
theorem radial_invertibility_condition {D : ℕ} (p : RadialParams D) :
    0 < specAlpha p ∧ specBeta p + specAlpha p = softplus p.beta_prime ∧
      0 < softplus p.beta_prime ∧ -specAlpha p < specBeta p := by
  have key : ∀ z : ℝ, 0 < softplus z := by
    intro z
    have h1 : 0 < Real.exp z := Real.exp_pos z
    have h2 : (1 : ℝ) < 1 + Real.exp z := by linarith
    exact Real.log_pos h2
  refine ⟨key _, by simp [specBeta], key _, ?_⟩
  have hb := key p.beta_prime
  simp only [specBeta, specAlpha] at *
  linarith

/-- C5: `_inverse(y)` unconditionally raises a `KeyError` (a lookup-style
"no cached intermediate" error), never returns a value and never modifies the
instance's state. -/
theorem radial_inverse_always_raises {D : ℕ} (t : ConditionedRadial D)
    (y : Tensor D) :
    t.inverseFn y =
      (Except.error (PyErr.keyError
        "ConditionedRadial object expected to find key in intermediates cache but did not"),
       t) := rfl

/-- C6: when the derived `β = softplus(beta_prime) − softplus(alpha_prime)`
is zero, the forward map is the identity. -/
theorem radial_identity_when_beta_zero {D : ℕ} (p : RadialParams D)
    (xs : List (Fin D → ℝ))
    (hb : -softplus p.alpha_prime + softplus p.beta_prime = 0) :
    (radialCall p xs).1 = xs := by
  rw [radialCall_eq_map]
  have hfwd : specForward p = fun x => x := by
    funext x i
    have hβ : specBeta p = 0 := by
      simp only [specBeta, specAlpha]
      linarith
    simp [specForward, hβ]
  simp [hfwd]

/-- C6 witness: with `alpha_prime = beta_prime = 0` the derived `β` vanishes
and the forward pass maps the batch `[fun i => 1]` (in dimension 2) to itself. -/
theorem radial_identity_when_beta_zero_witness :
    -softplus 0 + softplus 0 = 0 ∧
      (radialCall (D := 2) ⟨fun _ => 0, 0, 0⟩ [fun _ => 1]).1 = [fun _ => 1] :=
  ⟨by ring, radial_identity_when_beta_zero ⟨fun _ => 0, 0, 0⟩ [fun _ => 1] (by ring)⟩

/-- C7: forward applied to a stacked batch equals forward applied to each
vector individually (as a singleton batch) with the outputs stacked, for both
the output tensor and the per-element log-Jacobian. -/
theorem radial_batch_invariance {D : ℕ} (p : RadialParams D)
    (xs : List (Fin D → ℝ)) :
    (radialCall p xs).1 = (xs.map (fun v => (radialCall p [v]).1)).flatten ∧
    (radialCall p xs).2 = (xs.map (fun v => (radialCall p [v]).2)).flatten := by
  constructor
  · rw [radialCall_eq_map]
    have h : (fun v => (radialCall p [v]).1) = fun v => [specForward p v] := by
      funext v
      rw [radialCall_eq_map]
      rfl
    rw [h, join_map_singleton]
  · rw [radialCall_eq_map]
    have h : (fun v => (radialCall p [v]).2) = fun v => [specLogDet p v] := by
      funext v
      rw [radialCall_eq_map]
      rfl
    rw [h, join_map_singleton]

/-- C8: `condition(context)` feeds the context through the parameter network
and returns a freshly constructed `ConditionedRadial` holding the three
returned tensors, with an empty one-entry cache; the `ConditionalRadial`
itself is a pure value and is not mutated. -/
theorem conditional_radial_condition_fresh {C D : ℕ} (m : ConditionalRadial C D)
    (context : Fin C → ℝ) :
    m.condition context =
      ConditionedRadial.init (m.nn context).1 (m.nn context).2.1 (m.nn context).2.2 ∧
    (m.condition context).x0 = (m.nn context).1 ∧
    (m.condition context).alpha_prime = (m.nn context).2.1 ∧
    (m.condition context).beta_prime = (m.nn context).2.2 ∧
    (m.condition context).cached_x_y = none ∧
    (m.condition context).cached_logDetJ = none :=
  ⟨rfl, rfl, rfl, rfl, rfl, rfl⟩

/-- Concrete tensors used to exercise the cache at specific object
identities. -/
def tensorA : Tensor 1 := ⟨0, [fun _ => 0]⟩

def tensorB : Tensor 1 := ⟨1, [fun _ => 0]⟩

def tensorC : Tensor 1 := ⟨2, [fun _ => 0]⟩

def tensorD : Tensor 1 := ⟨3, [fun _ => 0]⟩

/-- A concrete instance whose cache holds the pair `(tensorA, tensorB)`. -/
def cachedInstance : ConditionedRadial 1 :=
  ⟨fun _ => 0, 0, 0, some (tensorA, tensorB), some [0]⟩

/-- A concrete freshly initialised instance (empty cache). -/
def freshInstance : ConditionedRadial 1 :=
  ConditionedRadial.init (fun _ => 0) 0 0

/-- C4: with the exact cached `(x, y)` pair (by object identity),
`log_abs_det_jacobian` returns the cached log-determinant and leaves the state
untouched; with a pair that misses the identity check it re-executes the
forward map on `x`, refreshes the cache, and returns the closed-form
log-determinant of `x`. -/
theorem radial_logdet_cache_discipline {D : ℕ} (t : ConditionedRadial D)
    (x y x2 y2 : Tensor D) (yid : ℕ)
    (hc : t.cached_x_y = some (x, y))
    (hm : ¬(x2.tid = x.tid ∧ y2.tid = y.tid)) :
    t.log_abs_det_jacobian x y yid = (t.cached_logDetJ, t) ∧
    t.log_abs_det_jacobian x2 y2 yid =
      (some (x2.val.map (specLogDet t.params)), (t.call x2 yid).2) := by
  constructor
  · simp only [ConditionedRadial.log_abs_det_jacobian, hc]
    simp
  · simp only [ConditionedRadial.log_abs_det_jacobian, hc]
    rw [if_neg hm]
    have h1 : ((t.call x2 yid).2).cached_logDetJ =
        some (x2.val.map (specLogDet t.params)) := by
      show some (radialCall t.params x2.val).2 = _
      rw [radialCall_eq_map]
    simp [h1]

/-- C4 witness: on a concrete instance caching `(tensorA, tensorB)`, the hit
path returns the cached value with the state unchanged and the miss path
`(tensorC, tensorD)` recomputes. -/
theorem radial_logdet_cache_discipline_witness :
    cachedInstance.log_abs_det_jacobian tensorA tensorB 5 =
      (cachedInstance.cached_logDetJ, cachedInstance) ∧
    cachedInstance.log_abs_det_jacobian tensorC tensorD 5 =
      (some (tensorC.val.map (specLogDet cachedInstance.params)),
       (cachedInstance.call tensorC 5).2) :=
  radial_logdet_cache_discipline cachedInstance tensorA tensorB tensorC tensorD 5
    rfl (by decide)

/-- C9: the value returned by `log_abs_det_jacobian` never depends on the
numerical contents of `y`: two calls with the same `x` whose `y` arguments
both hit (or both miss) the identity cache return equal log-determinants. -/
theorem radial_logdet_ignores_y_value {D : ℕ} (t : ConditionedRadial D)
    (x y1 y2 : Tensor D) (yid : ℕ)
    (h : cacheHit t x y1 = cacheHit t x y2) :
    (t.log_abs_det_jacobian x y1 yid).1 = (t.log_abs_det_jacobian x y2 yid).1 := by
  rcases hc : t.cached_x_y with _ | ⟨xo, yo⟩
  · simp only [ConditionedRadial.log_abs_det_jacobian, hc]
  · simp only [cacheHit, hc] at h
    have key : (x.tid = xo.tid ∧ y1.tid = yo.tid) ↔
        (x.tid = xo.tid ∧ y2.tid = yo.tid) := by
      rw [Bool.eq_iff_iff] at h
      simpa [Bool.and_eq_true, beq_iff_eq] using h
    simp only [ConditionedRadial.log_abs_det_jacobian, hc]
    by_cases h1 : x.tid = xo.tid ∧ y1.tid = yo.tid
    · rw [if_pos h1, if_pos (key.mp h1)]
    · rw [if_neg h1, if_neg (fun hh => h1 (key.mpr hh))]

/-- C9 witness: on a fresh instance both `(tensorA, tensorB)` and
`(tensorA, tensorD)` miss the empty cache and the returned log-determinants
coincide. -/
theorem radial_logdet_ignores_y_value_witness :
    (freshInstance.log_abs_det_jacobian tensorA tensorB 7).1 =
      (freshInstance.log_abs_det_jacobian tensorA tensorD 7).1 :=
  radial_logdet_ignores_y_value freshInstance tensorA tensorB tensorD 7 rfl

/-- C10: a forward call leaves `x0`, `alpha_prime` and `beta_prime` unchanged;
the only state it modifies is the one-entry cache, which afterwards holds the
`(input, output)` pair and the recomputed log-determinant. -/
theorem radial_call_frame {D : ℕ} (t : ConditionedRadial D) (x : Tensor D)
    (yid : ℕ) :
    ((t.call x yid).2).x0 = t.x0 ∧
    ((t.call x yid).2).alpha_prime = t.alpha_prime ∧
    ((t.call x yid).2).beta_prime = t.beta_prime ∧
    (t.call x yid).2 =
      { t with cached_x_y := some (x, (t.call x yid).1),
               cached_logDetJ := some (radialCall t.params x.val).2 } :=
  ⟨rfl, rfl, rfl, rfl⟩

end
